import Mathlib

/-!
Shallow embedding of `src/generate_ec_data.ipynb` (the notebook that builds
`ec_data.csv` and `ts_rv.csv`), together with proofs settling the frozen
claims about its specification.

Modelling conventions:
* Numeric values carried by the data are modelled by `ℚ` (the notebook's
  float arithmetic done exactly); transcendental outputs (`exp`, `log`,
  `sqrt`) live in `ℝ`.
* A possibly-missing (NaN) entry of a series is `Option ℚ`, `none` = NaN.
* A function whose NumPy counterpart can return NaN (e.g. `np.nanmean` of an
  empty list) returns `Option _`, `none` = NaN.
-/

/-- Embedding of `get_forcing(saod)`:
`np.multiply(-20.7, np.subtract(1, np.exp(np.multiply(-1, saod))))`,
i.e. `-20.7 * (1 - exp (-saod))`, applied pointwise; we model the scalar map. -/
noncomputable def get_forcing (saod : ℝ) : ℝ :=
  -20.7 * (1 - Real.exp (-saod))

/-- Dot product of two lists, `(x * y).sum` in NumPy terms (zip truncates;
the notebook only ever uses equal-length operands). -/
def dot (x y : List ℚ) : ℚ :=
  (List.zipWith (fun a b => a * b) x y).sum

/-- Slope fitted by `sm.OLS(y, sm.add_constant(X)).fit()` (equivalently by
`scipy.stats.linregress`): the normal-equation closed form
`(n·Σxy − Σx·Σy) / (n·Σx² − (Σx)²)`.  This matches the library exactly
whenever the design matrix is nonsingular (the denominator is nonzero);
theorems below only ever evaluate it under that hypothesis or compare
syntactic argument expressions. -/
def olsSlope (x y : List ℚ) : ℚ :=
  ((x.length : ℚ) * dot x y - x.sum * y.sum) /
    ((x.length : ℚ) * dot x x - x.sum * x.sum)

/-- Intercept fitted by `sm.OLS(y, sm.add_constant(X)).fit()`
(`reg.params[0]`): `(Σy − slope·Σx) / n`. -/
def olsIntercept (x y : List ℚ) : ℚ :=
  (y.sum - olsSlope x y * x.sum) / (x.length : ℚ)

/-- Residual vector `reg.resid` of the fit `y ~ 1 + x`:
`y_i − (intercept + slope·x_i)`. -/
def olsResid (x y : List ℚ) : List ℚ :=
  List.zipWith (fun xi yi => yi - (olsIntercept x y + olsSlope x y * xi)) x y

/-- Embedding of `remove_volcano(timeseries, temp_anomaly)`: fit
`timeseries ~ 1 + temp_anomaly` and return `reg.resid.values`. -/
def remove_volcano (timeseries temp_anomaly : List ℚ) : List ℚ :=
  olsResid temp_anomaly timeseries

/-- The driver's detrending expression `np.add(reg.resid, reg.params[0])`:
OLS residuals plus the fitted intercept. -/
def residPlusIntercept (X y : List ℚ) : List ℚ :=
  (olsResid X y).map (fun r => r + olsIntercept X y)

/-- Integer regressor positions `np.arange(0, n)` as rationals. -/
def positions (n : ℕ) : List ℚ :=
  (List.range n).map (fun k => (k : ℚ))

/-- The list of windows iterated by `compute_cox` after NaN stripping:
`for i in np.arange(0, len(x)-55): ... x[i:i+55]`.  `np.arange(0, m)` with
`m ≤ 0` is empty, which truncated `Nat` subtraction reproduces. -/
def coxWindows (x : List ℚ) : List (List ℚ) :=
  (List.range (x.length - 55)).map (fun i => (x.drop i).take 55)

/-- Embedding of `scipy.signal.detrend(w)` (linear type): the residuals of a
least-squares straight-line fit against the positions `0..len-1`. -/
def detrendLinear (w : List ℚ) : List ℚ :=
  olsResid (positions w.length) w

/-- Embedding of `tsa.acf(y, nlags=1)[1]`: the lag-1 sample autocorrelation
`Σ_{t<n-1} (y_t − ȳ)(y_{t+1} − ȳ) / Σ_t (y_t − ȳ)²`.  When the denominator
is zero (constant series) the library produces `0/0 = NaN`, modelled `none`. -/
def acf1 (y : List ℚ) : Option ℚ :=
  let m : ℚ := y.sum / (y.length : ℚ)
  let den : ℚ := (y.map (fun v => (v - m) * (v - m))).sum
  if den = 0 then none
  else some ((List.zipWith (fun a b => (a - m) * (b - m)) y y.tail).sum / den)

/-- Embedding of `np.std(y)`: population standard deviation
`sqrt(Σ(y_i − ȳ)² / n)`. -/
noncomputable def stdR (y : List ℚ) : ℝ :=
  Real.sqrt (((y.map (fun v => (v - y.sum / (y.length : ℚ)) ^ 2)).sum /
    (y.length : ℚ) : ℚ))

/-- One loop body of `compute_cox`: detrend the window, take the lag-1
autocorrelation `a`, then `psi = std / sqrt |log a|`.  NaN cases, modelled
`none`: `a` itself NaN (constant window), and `np.log a` NaN for `a < 0`.
For `a = 0`, `np.log 0 = -inf`, so `sqrt |log| = inf` and `psi = 0.0`; for
`a = 1` the float division yields an infinite (or, for zero std, NaN) value,
a degenerate case collapsed to `none` here — no claim evaluates `coxPsi`. -/
noncomputable def coxPsi (w : List ℚ) : Option ℝ :=
  let y := detrendLinear w
  match acf1 y with
  | none => none
  | some a =>
      if a < 0 then none
      else if a = 0 then some 0
      else if a = 1 then none
      else some (stdR y / Real.sqrt |Real.log ((a : ℝ))|)

/-- Embedding of `np.nanmean`: mean of the non-NaN entries, NaN (`none`)
when there are none. -/
noncomputable def nanmean (l : List (Option ℝ)) : Option ℝ :=
  let c := l.filterMap id
  if c.isEmpty then none else some (c.sum / (c.length : ℝ))

/-- Embedding of `compute_cox(x)`: strip NaNs (`x = x[~np.isnan(x)]`), slide
the 55-point windows, compute `psi` per window, and `np.nanmean` the list. -/
noncomputable def compute_cox (x : List (Option ℚ)) : Option ℝ :=
  nanmean ((coxWindows (x.filterMap id)).map coxPsi)

/-- The start indices visited by the `compute_nijsse` block loop:
`i = 0; while i < len(x)-length: ...; i += length`.  The guard `0 < L`
mirrors that the loop only terminates for a positive step (the notebook
only ever uses the default `length=10`; with `length=0` the Python code
would raise inside `linregress` rather than loop). -/
def nijsseStartsAux (n L i : ℕ) : List ℕ :=
  if _h : 0 < L ∧ i < n - L then
    i :: nijsseStartsAux n L (i + L)
  else
    []
termination_by n - i
decreasing_by omega

/-- Block start indices of `compute_nijsse` on a cleaned series of length `n`. -/
def nijsseStarts (n L : ℕ) : List ℕ :=
  nijsseStartsAux n L 0

/-- The blocks `x[i:i+length]` actually regressed by `compute_nijsse`. -/
def nijsseBlocks (x : List ℚ) (L : ℕ) : List (List ℚ) :=
  (nijsseStarts x.length L).map (fun i => (x.drop i).take L)

/-- The recorded block changes `length * slope` with
`slope, ... = linregress(np.arange(0, length), x[i:i+length])`. -/
def nijsseSlopes (x : List ℚ) (L : ℕ) : List ℚ :=
  (nijsseBlocks x L).map (fun b => (L : ℚ) * olsSlope (positions L) b)

/-- Embedding of `np.nanstd`: population standard deviation of the non-NaN
entries; NaN (`none`) for an empty list.  The slope lists fed to it contain
no NaN in this exact-arithmetic embedding, so only emptiness matters. -/
noncomputable def nanstd (l : List ℚ) : Option ℝ :=
  if l.isEmpty then none
  else
    some (Real.sqrt (((l.map (fun v => (v - l.sum / (l.length : ℚ)) ^ 2)).sum /
      (l.length : ℚ) : ℚ)))

/-- Embedding of `compute_nijsse(x, length)`: strip NaNs, regress each
non-overlapping block, record `length*slope`, return `np.nanstd(slopes)`. -/
noncomputable def compute_nijsse (x : List (Option ℚ)) (L : ℕ) : Option ℝ :=
  nanstd (nijsseSlopes (x.filterMap id) L)

/-- C2 counterexample: the conversion is not increasing: it maps 0 to 0 and
1 to a negative forcing, so `get_forcing 0 < get_forcing 1` fails. -/
theorem get_forcing_not_increasing : ¬ (get_forcing 0 < get_forcing 1) := by
  have h0 : get_forcing 0 = 0 := by
    simp [get_forcing]
  have h1 : Real.exp (-1) < 1 := by
    calc Real.exp (-1) < Real.exp 0 := Real.exp_lt_exp.mpr (by norm_num)
    _ = 1 := Real.exp_zero
  have hneg : get_forcing 1 < 0 := by
    have hpos : (0 : ℝ) < 1 - Real.exp (-1) := by linarith
    have : (-20.7 : ℝ) * (1 - Real.exp (-1)) < 0 := by nlinarith
    simpa [get_forcing] using this
  intro hlt
  rw [h0] at hlt
  exact absurd hlt (not_lt.mpr hneg.le)

/-- C2 (amended): the AOD-to-forcing conversion is strictly decreasing:
for `x1 < x2`, `get_forcing x2 < get_forcing x1` (the forcing becomes more
negative, approaching −20.7). -/
theorem get_forcing_strict_anti (x1 x2 : ℝ) (h : x1 < x2) :
    get_forcing x2 < get_forcing x1 := by
  have hexp : Real.exp (-x2) < Real.exp (-x1) :=
    Real.exp_lt_exp.mpr (by linarith)
  unfold get_forcing
  nlinarith

/-- C2 witness: the amended monotonicity at the concrete pair 0 < 1. -/
theorem get_forcing_strict_anti_witness :
    (0 : ℝ) < 1 ∧ get_forcing 1 < get_forcing 0 :=
  ⟨by norm_num, get_forcing_strict_anti 0 1 (by norm_num)⟩

/-- C4 counterexample: a series of exactly 55 clean points yields no window
at all (the loop `for i in np.arange(0, len(x)-55)` is empty), not the one
window the claim asserts. -/
theorem compute_cox_55_points_no_window :
    ¬ ((coxWindows (List.replicate 55 (0 : ℚ))).length = 55 - 54) := by
  simp [coxWindows]

/-- C4 (amended): `compute_cox` forms exactly `n - 55` windows (the loop
runs `i = 0 .. n-56`), so a 55-point series yields none, and every window
it does form stops strictly short of the last element: its indices
`i .. i+54` satisfy `i + 55 < n`. -/
theorem compute_cox_window_count (x : List ℚ) :
    (coxWindows x).length = x.length - 55 ∧
    ∀ i, i ∈ List.range (x.length - 55) → i + 55 < x.length := by
  constructor
  · simp [coxWindows]
  · intro i hi
    rw [List.mem_range] at hi
    omega

/-- C4 witness: on a 60-point series the amended count gives five windows
and the first window indeed ends before the last element. -/
theorem compute_cox_window_count_witness :
    (coxWindows (List.replicate 60 (0 : ℚ))).length = 60 - 55 ∧
      0 + 55 < 60 := by
  constructor
  · have h := (compute_cox_window_count (List.replicate 60 (0 : ℚ))).1
    simpa using h
  · have h := (compute_cox_window_count (List.replicate 60 (0 : ℚ))).2 0
      (by simp)
    rw [List.length_replicate] at h
    exact h

/-- The full-length adjusted series the driver stores in `df_rv` for the
default branches (`gao`, `crowley_08`, `evolv2k`, and the HadCM3 override):
`np.append(np.add(reg.resid, reg.params[0]), ts_historical)` with the
regression run on `ts_past1000 = ts[:1001]`. -/
def dfRvDefault (f ts : List ℚ) : List ℚ :=
  residPlusIntercept f (ts.take 1001) ++ ts.drop 1001

/-- The series the driver passes to `compute_cox` / `compute_nijsse` as the
volcano-adjusted series in the default branches: the same expression
`np.append(np.add(reg.resid, reg.params[0]), ts_historical)`. -/
def rvMetricInputDefault (f ts : List ℚ) : List ℚ :=
  residPlusIntercept f (ts.take 1001) ++ ts.drop 1001

/-- The adjusted series stored in `df_rv` for the `crowley_00` branch:
`np.append(ts[:151], np.add(reg.resid, reg.params[0]))` with the regression
run on `y = ts[151:]`. -/
def dfRvCrowley00 (f ts : List ℚ) : List ℚ :=
  ts.take 151 ++ residPlusIntercept f (ts.drop 151)

/-- The series the `crowley_00` branch passes to `compute_cox` /
`compute_nijsse` as the adjusted series: only
`np.add(reg.resid, reg.params[0])` — the first 151 points are not included. -/
def rvMetricInputCrowley00 (f ts : List ℚ) : List ℚ :=
  residPlusIntercept f (ts.drop 151)

/-- C3 counterexample: in the `crowley_00` branch the series handed to the
metrics differs from the stored adjusted-timeseries column (here the stored
column keeps the untouched head while the metric input omits it). -/
theorem crowley00_metric_input_not_stored_series :
    rvMetricInputCrowley00 [] [(2 : ℚ)] ≠ dfRvCrowley00 [] [(2 : ℚ)] := by
  decide

/-- C3 (amended): in every default branch the metrics are computed on
exactly the spliced series stored in the adjusted-timeseries table, but in
the `crowley_00` branch they are computed only on the residual-plus-intercept
tail, while the stored column additionally keeps the untouched first 151
points — so for any nonempty series the two differ. -/
theorem rv_metric_input_vs_stored (f ts : List ℚ) :
    rvMetricInputDefault f ts = dfRvDefault f ts ∧
    (0 < ts.length → rvMetricInputCrowley00 f ts ≠ dfRvCrowley00 f ts) := by
  refine ⟨rfl, ?_⟩
  intro hpos heq
  have hlen := congrArg List.length heq
  rw [rvMetricInputCrowley00, dfRvCrowley00, List.length_append] at hlen
  have h151 : (ts.take 151).length = min 151 ts.length := List.length_take 151 ts
  omega

/-- C3 witness: the amended statement at a concrete one-point series. -/
theorem rv_metric_input_vs_stored_witness :
    rvMetricInputDefault [] [(3 : ℚ)] = dfRvDefault [] [(3 : ℚ)] ∧
      rvMetricInputCrowley00 [] [(3 : ℚ)] ≠ dfRvCrowley00 [] [(3 : ℚ)] :=
  ⟨(rv_metric_input_vs_stored [] [(3 : ℚ)]).1,
    (rv_metric_input_vs_stored [] [(3 : ℚ)]).2 (by decide)⟩

/-- C9: both splice shapes reproduce the original length, provided the
forcing series matches the regression window (the notebook's data satisfy
this; `statsmodels` aborts on a mismatch). -/
theorem df_rv_length_preserved (f g ts : List ℚ)
    (hf : f.length = (ts.take 1001).length)
    (hg : g.length = (ts.drop 151).length) :
    (dfRvDefault f ts).length = ts.length ∧
    (dfRvCrowley00 g ts).length = ts.length := by
  have hrpi : ∀ X y : List ℚ,
      (residPlusIntercept X y).length = min X.length y.length := by
    intro X y
    rw [residPlusIntercept, List.length_map, olsResid, List.length_zipWith]
  constructor
  · rw [dfRvDefault, List.length_append, hrpi, hf]
    have h1 : (ts.take 1001).length = min 1001 ts.length := List.length_take 1001 ts
    have h2 : (ts.drop 1001).length = ts.length - 1001 := List.length_drop 1001 ts
    omega
  · rw [dfRvCrowley00, List.length_append, hrpi, hg]
    have h1 : (ts.take 151).length = min 151 ts.length := List.length_take 151 ts
    have h2 : (ts.drop 151).length = ts.length - 151 := List.length_drop 151 ts
    omega

/-- C9 witness: length preservation at a concrete 1200-point series with a
1001-point default forcing window and a 1049-point `crowley_00` window. -/
theorem df_rv_length_preserved_witness :
    (dfRvDefault (List.replicate 1001 (0 : ℚ))
        (List.replicate 1200 (0 : ℚ))).length =
      (List.replicate 1200 (0 : ℚ)).length ∧
    (dfRvCrowley00 (List.replicate 1049 (0 : ℚ))
        (List.replicate 1200 (0 : ℚ))).length =
      (List.replicate 1200 (0 : ℚ)).length :=
  df_rv_length_preserved _ _ _
    (by rw [List.length_replicate, List.length_take, List.length_replicate]; omega)
    (by rw [List.length_replicate, List.length_drop, List.length_replicate])

/-- Length of the block-start list produced by the `compute_nijsse` loop
starting at index `i`: there are `(n - 1 - i) / L` starts. -/
theorem nijsseStartsAux_length (n L i : ℕ) (hL : 0 < L) :
    (nijsseStartsAux n L i).length = (n - 1 - i) / L := by
  rw [nijsseStartsAux]
  split
  · rename_i h
    rw [List.length_cons, nijsseStartsAux_length n L (i + L) hL]
    have h2 : L ≤ n - 1 - i := by omega
    have h3 : n - 1 - (i + L) = n - 1 - i - L := by omega
    rw [h3, Nat.div_eq_sub_div hL h2]
  · rename_i h
    have hsm : n - 1 - i < L := by omega
    rw [Nat.div_eq_of_lt hsm]
    rfl
termination_by n - i
decreasing_by omega

/-- The `compute_nijsse` loop visits `(n - 1) / L` block starts. -/
theorem nijsseStarts_length (n L : ℕ) (hL : 0 < L) :
    (nijsseStarts n L).length = (n - 1) / L := by
  rw [nijsseStarts, nijsseStartsAux_length n L 0 hL, Nat.sub_zero]

/-- C5 counterexample: on a 20-point clean series with window length 10 the
loop `while i < len(x)-length` forms a single block, not the
`floor(20 / 10) = 2` blocks the claim asserts. -/
theorem compute_nijsse_not_floor_blocks :
    (nijsseBlocks (List.replicate 20 (0 : ℚ)) 10).length ≠ 20 / 10 := by
  have h : (nijsseBlocks (List.replicate 20 (0 : ℚ)) 10).length = 1 := by
    rw [nijsseBlocks, List.length_map, List.length_replicate,
      nijsseStarts_length 20 10 (by norm_num)]
  rw [h]
  norm_num

/-- C5 (amended): `compute_nijsse` fits a regression in exactly
`floor((n - 1) / L)` blocks (the loop guard `i < n - L` is strict), so when
`L` exactly divides `n` the final full block is discarded along with the
trailing remainder, leaving `n / L - 1` blocks instead of `n / L`. -/
theorem compute_nijsse_block_count (x : List ℚ) (L : ℕ) (hL : 0 < L) :
    (nijsseBlocks x L).length = (x.length - 1) / L ∧
    (L ∣ x.length → 0 < x.length →
      (nijsseBlocks x L).length = x.length / L - 1) := by
  have hlen : (nijsseBlocks x L).length = (x.length - 1) / L := by
    rw [nijsseBlocks, List.length_map, nijsseStarts_length _ _ hL]
  refine ⟨hlen, ?_⟩
  intro hdvd hpos
  obtain ⟨k, hk⟩ := hdvd
  have hk1 : 0 < k := by
    rcases Nat.eq_zero_or_pos k with h0 | h0
    · rw [h0, mul_zero] at hk
      omega
    · exact h0
  have hk2 : x.length = k * L := by rw [hk, mul_comm]
  have hdivk : k * L / L = k := Nat.mul_div_cancel k hL
  have h3 : (k - 1) * L + (L - 1) = k * L - 1 := by
    have hksub : (k - 1) * L = k * L - L := by
      rw [Nat.sub_mul, one_mul]
    have hLe : L ≤ k * L := Nat.le_mul_of_pos_left L hk1
    omega
  have hkey : (k * L - 1) / L = k - 1 := by
    rw [← h3, Nat.add_comm, Nat.add_mul_div_right _ _ hL,
      Nat.div_eq_of_lt (by omega : L - 1 < L), Nat.zero_add]
  rw [hlen, hk2, hkey, hdivk]

/-- C5 witness: the amended block count at a concrete 30-point clean series
with window length 10: two blocks, i.e. `30 / 10 - 1`. -/
theorem compute_nijsse_block_count_witness :
    (nijsseBlocks (List.replicate 30 (0 : ℚ)) 10).length = (30 - 1) / 10 ∧
      (nijsseBlocks (List.replicate 30 (0 : ℚ)) 10).length = 30 / 10 - 1 := by
  have h := compute_nijsse_block_count (List.replicate 30 (0 : ℚ)) 10
    (by norm_num)
  constructor
  · have h1 := h.1
    rwa [List.length_replicate] at h1
  · have h2 := h.2 (by rw [List.length_replicate]; norm_num)
      (by rw [List.length_replicate]; norm_num)
    rwa [List.length_replicate] at h2

/-- C10: a series whose NaN-stripped length is below the window length
yields no window at all, and each metric returns NaN (`none`, the value of
`np.nanmean` / `np.nanstd` on an empty list) rather than raising. -/
theorem short_series_metrics_nan (x y : List (Option ℚ)) (L : ℕ)
    (hx : (x.filterMap id).length < 55)
    (hy : (y.filterMap id).length < L) :
    compute_cox x = none ∧ compute_nijsse y L = none := by
  constructor
  · have h0 : (x.filterMap id).length - 55 = 0 := by omega
    rw [compute_cox, coxWindows, h0]
    simp [nanmean]
  · have h0 : (y.filterMap id).length - L = 0 := by omega
    have hstart : nijsseStarts (y.filterMap id).length L = [] := by
      rw [nijsseStarts, nijsseStartsAux]
      simp [h0]
    rw [compute_nijsse, nijsseSlopes, nijsseBlocks, hstart]
    simp [nanstd]

/-- C10 witness: concrete short inputs (one clean point after stripping a
NaN for the Cox metric; one clean point against window length 10 for the
Nijsse metric) produce NaN from both metrics. -/
theorem short_series_metrics_nan_witness :
    compute_cox [some (1 : ℚ), none] = none ∧
      compute_nijsse [some (1 : ℚ)] 10 = none :=
  short_series_metrics_nan [some (1 : ℚ), none] [some (1 : ℚ)] 10
    (by decide) (by decide)

/-- Sum of an affine image: `Σ (a·v + c) = a·Σv + n·c`. -/
theorem sum_map_affine (a c : ℚ) (f : List ℚ) :
    (f.map (fun v => a * v + c)).sum = a * f.sum + (f.length : ℚ) * c := by
  induction f with
  | nil => simp
  | cons v fs ih =>
    simp only [List.map_cons, List.sum_cons, ih, List.length_cons]
    push_cast
    ring

/-- Dot product against an affine image: `f · (a·f + c) = a·(f·f) + c·Σf`. -/
theorem dot_map_affine (a c : ℚ) (f : List ℚ) :
    dot f (f.map (fun v => a * v + c)) = a * dot f f + c * f.sum := by
  induction f with
  | nil => simp [dot]
  | cons v fs ih =>
    have h : dot (v :: fs) ((v :: fs).map (fun u => a * u + c)) =
        v * (a * v + c) + dot fs (fs.map (fun u => a * u + c)) := by
      simp [dot]
    have h2 : dot (v :: fs) (v :: fs) = v * v + dot fs fs := by
      simp [dot]
    rw [h, ih, h2, List.sum_cons]
    ring

/-- Pointwise residual of the exact affine relationship: zero everywhere. -/
theorem zipWith_affine_resid (a c : ℚ) (f : List ℚ) :
    List.zipWith (fun xi yi => yi - (c + a * xi)) f
        (f.map (fun v => a * v + c)) =
      List.replicate f.length 0 := by
  induction f with
  | nil => rfl
  | cons v fs ih =>
    rw [List.map_cons, List.zipWith_cons_cons, ih, List.length_cons,
      List.replicate_succ]
    congr 1
    ring

/-- C8: the driver's detrending operation (`reg.resid + reg.params[0]` from
the fit `series ~ 1 + forcing`) applied to a series that is exactly
`a·forcing + c` returns the constant series `c` — all residuals vanish and
the intercept is `c` — provided the forcing is non-degenerate (nonsingular
design, i.e. `n·Σf² − (Σf)² ≠ 0`). -/
theorem detrend_removes_linear (f : List ℚ) (a c : ℚ)
    (hD : (f.length : ℚ) * dot f f - f.sum * f.sum ≠ 0) :
    residPlusIntercept f (f.map (fun v => a * v + c)) =
      List.replicate f.length c := by
  have hne : f ≠ [] := by
    intro h
    rw [h] at hD
    simp [dot] at hD
  have hn : ((f.length : ℚ)) ≠ 0 := by
    have hlen : f.length ≠ 0 := fun h => hne (List.length_eq_zero.mp h)
    exact_mod_cast Nat.cast_ne_zero.mpr hlen
  have hslope : olsSlope f (f.map (fun v => a * v + c)) = a := by
    rw [olsSlope, sum_map_affine, dot_map_affine]
    have hnum : (f.length : ℚ) * (a * dot f f + c * f.sum) -
        f.sum * (a * f.sum + (f.length : ℚ) * c) =
        a * ((f.length : ℚ) * dot f f - f.sum * f.sum) := by
      ring
    rw [hnum, mul_div_assoc, div_self hD, mul_one]
  have hint : olsIntercept f (f.map (fun v => a * v + c)) = c := by
    rw [olsIntercept, hslope, sum_map_affine]
    have hc : a * f.sum + (f.length : ℚ) * c - a * f.sum =
        c * (f.length : ℚ) := by
      ring
    rw [hc, mul_div_assoc, div_self hn, mul_one]
  rw [residPlusIntercept, olsResid, hslope, hint, zipWith_affine_resid,
    List.map_replicate, zero_add]

/-- C8 witness: detrending `2·f + 3` for the concrete forcing `f = [0, 1]`
returns the constant series `3`. -/
theorem detrend_removes_linear_witness :
    (([(0 : ℚ), 1].length : ℚ) * dot [(0 : ℚ), 1] [(0 : ℚ), 1] -
        [(0 : ℚ), 1].sum * [(0 : ℚ), 1].sum ≠ 0) ∧
      residPlusIntercept [(0 : ℚ), 1]
          ([(0 : ℚ), 1].map (fun v => 2 * v + 3)) =
        List.replicate ([(0 : ℚ), 1]).length 3 :=
  ⟨by norm_num [dot], detrend_removes_linear [(0 : ℚ), 1] 2 3 (by norm_num [dot])⟩

/-- One row of the external ECS table `data/ecs.csv`: columns
`model name`, `generation`, `ecs`. -/
structure EcsRow where
  name : String
  generation : String
  ecs : ℚ
deriving DecidableEq

/-- Embedding of `t[t['model name']==model_keys[i]]['ecs'].values[0]`:
filter the rows by exact name equality, project the `ecs` column, take the
first entry.  `none` models the fatal `IndexError` when the name is absent. -/
def ecsLookup (t : List EcsRow) (m : String) : Option ℚ :=
  ((t.filter (fun r => r.name == m)).map (fun r => r.ecs)).head?

/-- The summary table assembled by the driver (cell 13 of the notebook):
per model, the model name, the ECS value collected by name lookup inside the
loop, and the generation label taken from `t['generation'].values` — i.e.
positionally from the i-th row of the ECS table, not by name. -/
def summaryPairs (t : List EcsRow) (models : List String) :
    List (String × Option ℚ × String) :=
  List.zipWith (fun m g => (m, ecsLookup t m, g)) models
    (t.map (fun r => r.generation))

/-- C1 counterexample: swapping the two rows of a two-row ECS table changes
the summary records (the generation labels follow row order), refuting the
claim that permuting the ECS table leaves every (ecs, generation) pairing
unchanged. -/
theorem summary_generation_not_by_name :
    summaryPairs [⟨"A", "g1", 1⟩, ⟨"B", "g2", 2⟩] ["A", "B"] ≠
        summaryPairs [⟨"B", "g2", 2⟩, ⟨"A", "g1", 1⟩] ["A", "B"] ∧
      List.Perm [EcsRow.mk "A" "g1" 1, EcsRow.mk "B" "g2" 2]
        [EcsRow.mk "B" "g2" 2, EcsRow.mk "A" "g1" 1] :=
  ⟨by decide, List.Perm.swap _ _ _⟩

/-- A name filter on a table with pairwise-distinct names keeps at most one
row. -/
theorem filter_name_length_le_one (t : List EcsRow) (m : String)
    (hn : (t.map EcsRow.name).Nodup) :
    (t.filter (fun r => r.name == m)).length ≤ 1 := by
  induction t with
  | nil => simp
  | cons r rs ih =>
    rw [List.map_cons, List.nodup_cons] at hn
    by_cases hr : r.name = m
    · have hnil : rs.filter (fun s => s.name == m) = [] := by
        rw [List.filter_eq_nil_iff]
        intro s hs hsm
        rw [beq_iff_eq] at hsm
        exact hn.1 (hr ▸ hsm ▸ List.mem_map_of_mem EcsRow.name hs)
      rw [List.filter_cons_of_pos (by rw [beq_iff_eq]; exact hr), hnil]
      simp
    · rw [List.filter_cons_of_neg (by rw [beq_iff_eq]; exact hr)]
      exact ih hn.2

/-- A permutation of a list with at most one element is the identity. -/
theorem perm_eq_of_length_le_one {α : Type} {l1 l2 : List α}
    (h : l1.Perm l2) (hl : l1.length ≤ 1) : l1 = l2 := by
  match l1, hl with
  | [], _ => exact (List.perm_nil.mp h.symm).symm
  | [a], _ => exact (List.perm_singleton.mp h.symm).symm

/-- C1 (amended): the ECS value of every summary record is looked up by
exact model-name match, so permuting the rows of an ECS table with distinct
model names leaves every model's ECS unchanged; the generation label,
by contrast, is copied positionally from the table's row order (see the
counterexample), so it follows the permutation. -/
theorem ecs_lookup_perm_invariant (t t2 : List EcsRow) (models : List String)
    (hp : t.Perm t2) (hn : (t.map EcsRow.name).Nodup) :
    models.map (ecsLookup t) = models.map (ecsLookup t2) := by
  apply List.map_congr_left
  intro m _
  have hfilter : t.filter (fun r => r.name == m) =
      t2.filter (fun r => r.name == m) :=
    perm_eq_of_length_le_one (hp.filter _) (filter_name_length_le_one t m hn)
  rw [ecsLookup, ecsLookup, hfilter]

/-- C1 witness: ECS lookup is unchanged by the concrete two-row swap. -/
theorem ecs_lookup_perm_invariant_witness :
    ["A", "B"].map (ecsLookup [⟨"A", "g1", 1⟩, ⟨"B", "g2", 2⟩]) =
      ["A", "B"].map (ecsLookup [⟨"B", "g2", 2⟩, ⟨"A", "g1", 1⟩]) :=
  ecs_lookup_perm_invariant _ _ _ (List.Perm.swap _ _ _) (by decide)

/-- The per-cell masked weight `weights*da/da` of `weighted_mean`: a missing
(NaN) cell gives `NaN` (`none`), and a cell whose value is exactly 0 gives
`w·0/0 = NaN` as well — the masking also knocks out zero-valued cells.  For
any other value the float quotient `w·v/v` is exactly `w`. -/
def effWeight (cell : Option ℚ) (w : ℚ) : Option ℚ :=
  match cell with
  | none => none
  | some v => if v = 0 then none else some w

/-- Numerator of `weighted_mean` at one time step:
`(da*weights).sum(skipna=True)` — NaN products are skipped, the rest summed. -/
def wmNum (cells : List (Option ℚ)) (ws : List ℚ) : ℚ :=
  ((List.zipWith (fun c e =>
      Option.bind c (fun u => Option.map (fun w => u * w) e))
    cells (List.zipWith effWeight cells ws)).filterMap id).sum

/-- Denominator of `weighted_mean` at one time step:
`weights.sum(skipna=True)` over the masked weights. -/
def wmDen (cells : List (Option ℚ)) (ws : List ℚ) : ℚ :=
  ((List.zipWith effWeight cells ws).filterMap id).sum

/-- The spatial reduction of `weighted_mean` at a single time step: the two
skipna sums and their quotient.  A zero denominator makes the float quotient
non-finite (NaN when the numerator is also zero, as in the all-NaN-weight
case), modelled `none`. -/
def weightedMeanStep (cells : List (Option ℚ)) (ws : List ℚ) : Option ℚ :=
  if wmDen cells ws = 0 then none
  else some (wmNum cells ws / wmDen cells ws)

/-- `weighted_mean` over the time axis: one reduced value per time step
(the spatial dims are summed out, the time dim kept). -/
def weighted_mean_field (field : List (List (Option ℚ))) (ws : List ℚ) :
    List (Option ℚ) :=
  field.map (fun cells => weightedMeanStep cells ws)

/-- C6 counterexample: a time step whose every (non-missing) cell holds the
identical value 0 does not produce 0: the `weights*da/da` masking turns all
weights into NaN, both skipna sums are 0, and `0/0` is NaN. -/
theorem weighted_mean_zero_field_nan :
    weightedMeanStep [some 0, some 0] [1, 1] ≠ some 0 := by
  decide

/-- With every cell missing or equal to a fixed nonzero `v`, the masked
numerator is `v` times the masked denominator. -/
theorem wmNum_eq_v_mul_den (v : ℚ) (hv : v ≠ 0) :
    ∀ (cells : List (Option ℚ)) (ws : List ℚ),
      (∀ c ∈ cells, c = none ∨ c = some v) →
      wmNum cells ws = v * wmDen cells ws := by
  intro cells
  induction cells with
  | nil =>
    intro ws _
    simp [wmNum, wmDen]
  | cons c cs ih =>
    intro ws hall
    cases ws with
    | nil => simp [wmNum, wmDen]
    | cons w wss =>
      have hcs : ∀ x ∈ cs, x = none ∨ x = some v :=
        fun x hx => hall x (List.mem_cons_of_mem c hx)
      have ihw := ih wss hcs
      rcases hall c (List.mem_cons_self c cs) with hc | hc
      · subst hc
        simp only [wmNum, wmDen, List.zipWith_cons_cons, effWeight,
          Option.bind] at ihw ⊢
        simpa [List.filterMap_cons] using ihw
      · subst hc
        simp only [wmNum, wmDen, List.zipWith_cons_cons, effWeight,
          if_neg hv, Option.bind, Option.map] at ihw ⊢
        simp only [List.filterMap_cons, id, List.sum_cons]
        rw [ihw]
        ring

/-- C6 (amended): `weighted_mean` returns one value per time step, and at a
time step whose every non-missing cell holds the identical value `v`, the
result is `v` for any latitude weights — provided `v ≠ 0` (a zero-valued
field is masked away entirely by `weights*da/da` and gives NaN, see the
counterexample) and the masked weights do not sum to zero. -/
theorem weighted_mean_identical_value (field : List (List (Option ℚ)))
    (cells : List (Option ℚ)) (ws : List ℚ) (v : ℚ) (hv : v ≠ 0)
    (hall : ∀ c ∈ cells, c = none ∨ c = some v)
    (hden : wmDen cells ws ≠ 0) :
    (weighted_mean_field field ws).length = field.length ∧
      weightedMeanStep cells ws = some v := by
  constructor
  · rw [weighted_mean_field, List.length_map]
  · rw [weightedMeanStep, if_neg hden, wmNum_eq_v_mul_den v hv cells ws hall,
      mul_div_assoc, div_self hden, mul_one]

/-- C6 witness: a concrete one-step field with value 2, one missing cell,
and unit weights reduces to 2. -/
theorem weighted_mean_identical_value_witness :
    (weighted_mean_field [[some 2, none]] [1, 1]).length = 1 ∧
      weightedMeanStep [some (2 : ℚ), none] [1, 1] = some 2 := by
  have h := weighted_mean_identical_value [[some 2, none]]
    [some (2 : ℚ), none] [1, 1] 2 (by norm_num)
    (by
      intro c hc
      simp only [List.mem_cons, List.not_mem_nil, or_false] at hc
      rcases hc with h1 | h1
      · right
        rw [h1]
      · left
        rw [h1])
    (by norm_num [wmDen, effWeight, List.filterMap_cons])
  simpa using h

/-- Failure modes of `weighted_mean`'s spatial-axis dispatch.  The source
has no `raise` at all: if none of the four axis-name conventions matches,
the trailing `return wm` reads the never-assigned local `wm` and Python
fails with an incidental unbound-local error; an explicit unsupported-format
error is what the specification asks for but the code never constructs. -/
inductive WMFailure where
  | unboundLocal
  | unsupportedFormat
deriving DecidableEq

/-- The axis-name dispatch of `weighted_mean`: the chain
`if 'lat' in da.dims ... elif 'i' ... elif 'nlat' ... elif 'x' ...` selects
the pair of spatial dims summed over; with no `else` branch the fall-through
hits the unbound local `wm`. -/
def weighted_mean_dims (dims : List String) : List String ⊕ WMFailure :=
  if "lat" ∈ dims then Sum.inl ["lat"]
  else if "i" ∈ dims then Sum.inl ["i", "j"]
  else if "nlat" ∈ dims then Sum.inl ["nlat", "nlon"]
  else if "x" ∈ dims then Sum.inl ["x", "y"]
  else Sum.inr WMFailure.unboundLocal

/-- C7 counterexample: on dims matching none of the four conventions the
function does not produce an explicit unsupported-format error. -/
theorem weighted_mean_no_explicit_error :
    weighted_mean_dims ["time", "station"] ≠
      Sum.inr WMFailure.unsupportedFormat := by
  decide

/-- C7 (amended): when none of the four spatial-axis naming conventions
matches, `weighted_mean` neither returns a value nor raises an explicit
unsupported-format error: it falls through to `return wm` with `wm` unbound
and dies with an incidental unbound-local error. -/
theorem weighted_mean_unmatched_dims_unbound (dims : List String)
    (h1 : "lat" ∉ dims) (h2 : "i" ∉ dims) (h3 : "nlat" ∉ dims)
    (h4 : "x" ∉ dims) :
    weighted_mean_dims dims = Sum.inr WMFailure.unboundLocal := by
  rw [weighted_mean_dims, if_neg h1, if_neg h2, if_neg h3, if_neg h4]

/-- C7 witness: the unbound-local outcome at a concrete unmatched dims list. -/
theorem weighted_mean_unmatched_dims_unbound_witness :
    weighted_mean_dims ["time", "station"] = Sum.inr WMFailure.unboundLocal :=
  weighted_mean_unmatched_dims_unbound ["time", "station"]
    (by decide) (by decide) (by decide) (by decide)
